import Mathlib

/-!
A shallow embedding of the snowflake crystal-growth simulation core
(`src/main.js`): the hexagonal lattice geometry, the per-cell state of
`SnowflakeCell`, the three-pass `step()` of `CrystalLattice`, the
constructor, and the `attachedCells`/`boundaryCells` queries.

Numbers are modelled as rationals.  The in-place mutation of the JS code
is modelled by explicit state passing: a lattice state is a total map
from axial coordinates to cell records, and each pass is a left fold
over the visit order that overwrites one cell at a time, exactly as the
`for (const cell of this.cells.values())` loops do.  `Math.random()` in
`noiseStep` is modelled by an explicit noise oracle giving the sampled
offset `(Math.random() - 0.5) * sigma * 2` for each cell.
-/

namespace Snowflake

/-- Axial hex coordinate `(q, r)`. -/
abbrev Coord : Type := ℤ × ℤ

/-- The tunable parameters of the `params` object that the simulation core
reads (`beta, theta, alpha, kappa, mu, upsilon, sigma, gamma`). -/
structure Params where
  beta : ℚ
  theta : ℚ
  alpha : ℚ
  kappa : ℚ
  mu : ℚ
  upsilon : ℚ
  sigma : ℚ
  gamma : ℚ
deriving DecidableEq

/-- The mutable fields of a `SnowflakeCell`: the three masses, the
`attached`/`boundary` flags, `age`, and the per-step scratch fields
`_next_dm` (here `nextDm`), the length of the `attachedNeighbors`
snapshot (only its length is ever read), and `attachmentFlag`. -/
structure CellState where
  diffusiveMass : ℚ
  boundaryMass : ℚ
  crystalMass : ℚ
  attached : Bool
  boundary : Bool
  age : ℕ
  nextDm : ℚ
  attachedNeighborCount : ℕ
  attachmentFlag : Bool
deriving DecidableEq

/-- A lattice state: the contents of the `cells` map, as a total function
on coordinates.  Coordinates outside the hexagonal region are never read
nor written by any pass or query. -/
abbrev LState : Type := Coord → CellState

/-- Overwrite one cell of the state (one in-place field assignment batch). -/
def updateState (s : LState) (c : Coord) (v : CellState) : LState :=
  fun x => if x = c then v else s x

/-- The six axial direction offsets, `(HEX_DX[d], HEX_DY[d])` for `d = 0..5`. -/
def hexOffsets : List Coord := [(1, 0), (0, 1), (-1, 1), (-1, 0), (0, -1), (1, -1)]

/-- Whether coordinate `c` is a key of the `cells` map built by the
`CrystalLattice` constructor: `-size ≤ q ≤ size`, `-size ≤ r ≤ size`,
`|q + r| ≤ size`. -/
def inLattice (size : ℤ) (c : Coord) : Bool :=
  decide (|c.1| ≤ size) && decide (|c.2| ≤ size) && decide (|c.1 + c.2| ≤ size)

/-- The memoized `neighbors` list of the cell at `c`: the six offset
coordinates, keeping those present in the lattice, in direction order. -/
def neighborsIn (size : ℤ) (c : Coord) : List Coord :=
  (hexOffsets.map fun d => (c.1 + d.1, c.2 + d.2)).filter (inLattice size)

/-- The integer range `lo, lo+1, ..., hi` (empty when `hi < lo`), as
traversed by `for (let q = -size; q <= size; q++)`. -/
def intRange (lo hi : ℤ) : List ℤ :=
  (List.range (hi + 1 - lo).toNat).map fun (i : ℕ) => lo + (i : ℤ)

/-- The insertion order of the `cells` map: `q`-major iteration over the
square `[-size, size]²`, skipping pairs with `|q + r| > size`. -/
def allCoords (size : ℤ) : List Coord :=
  ((intRange (-size) size) ×ˢ (intRange (-size) size)).filter
    fun c => decide (|c.1 + c.2| ≤ size)

/-- `SnowflakeCell.diffusionCalc`: attached cells return their own
diffusive mass; otherwise accumulate own mass plus one contribution per
existing neighbor (the cell's own mass for an attached neighbor, the
neighbor's mass otherwise) and divide by `neighbors.length + 1`. -/
def diffusionCalc (size : ℤ) (s : LState) (c : Coord) : ℚ :=
  let cell := s c
  if cell.attached then cell.diffusiveMass
  else
    let nbrs := neighborsIn size c
    let next := nbrs.foldl
      (fun acc n => acc + (if (s n).attached then cell.diffusiveMass else (s n).diffusiveMass))
      cell.diffusiveMass
    next / (nbrs.length + 1)

/-- `SnowflakeCell.stepOne`: recompute `boundary` from the current
neighbor `attached` flags, snapshot the attached-neighbor count when the
cell is boundary, and store the diffusion candidate in `nextDm`.  The
`age` increment performed inside `diffusionCalc` (exactly when the cell
is not attached) is recorded here. -/
def stepOneCell (size : ℤ) (s : LState) (c : Coord) : CellState :=
  let cell := s c
  let nbrs := neighborsIn size c
  let bdry := !cell.attached && nbrs.any fun n => (s n).attached
  { cell with
    boundary := bdry
    attachedNeighborCount :=
      if bdry then (nbrs.filter fun n => (s n).attached).length
      else cell.attachedNeighborCount
    age := if cell.attached then cell.age else cell.age + 1
    nextDm := diffusionCalc size s c }

/-- `SnowflakeCell.freezingStep`: for boundary cells, move fraction
`1 - kappa` of the diffusive mass to boundary mass and fraction `kappa`
to crystal mass, zeroing the diffusive mass. -/
def freezingStep (P : Params) (cell : CellState) : CellState :=
  if cell.boundary = false then cell
  else
    { cell with
      boundaryMass := cell.boundaryMass + (1 - P.kappa) * cell.diffusiveMass
      crystalMass := cell.crystalMass + P.kappa * cell.diffusiveMass
      diffusiveMass := 0 }

/-- `SnowflakeCell.meltingStep`: for boundary cells, return
`mu·boundaryMass + upsilon·crystalMass` to diffusive mass and decay the
boundary and crystal masses by `1 - mu` and `1 - upsilon`. -/
def meltingStep (P : Params) (cell : CellState) : CellState :=
  if cell.boundary = false then cell
  else
    { cell with
      diffusiveMass := cell.diffusiveMass + P.mu * cell.boundaryMass + P.upsilon * cell.crystalMass
      boundaryMass := (1 - P.mu) * cell.boundaryMass
      crystalMass := (1 - P.upsilon) * cell.crystalMass }

/-- `SnowflakeCell.attachmentStep`, evaluated on the cell's own current
fields `cell` (mid Pass 2: diffusion committed, freezing applied) and
reading the neighbors' diffusive masses from the current lattice state
`s`.  Non-boundary cells never attach; for at most two attached
neighbors the test is `boundaryMass > beta`; for exactly three it is
`boundaryMass ≥ 1`, or the summed diffusive mass of the cell and its
neighbors below `theta` together with `boundaryMass ≥ alpha`; otherwise
never. -/
def attachmentStep (P : Params) (size : ℤ) (s : LState) (c : Coord) (cell : CellState) : Bool :=
  if cell.boundary = false then false
  else if cell.attachedNeighborCount ≤ 2 then
    if P.beta < cell.boundaryMass then true else false
  else if cell.attachedNeighborCount = 3 then
    if (1 : ℚ) ≤ cell.boundaryMass then true
    else
      let summedDiff := (neighborsIn size c).foldl
        (fun acc n => acc + (s n).diffusiveMass) cell.diffusiveMass
      if summedDiff < P.theta ∧ P.alpha ≤ cell.boundaryMass then true else false
  else false

/-- `SnowflakeCell.stepTwo`: commit the diffusion candidate, set
`attachmentFlag` to `attached` (immediately overwritten below, as in the
source), run freezing, record the attachment decision, run melting.  The
neighbor reads of the attachment test go through the current (mid-pass)
state `s`. -/
def stepTwoCell (P : Params) (size : ℤ) (s : LState) (c : Coord) : CellState :=
  let cell0 := s c
  let cell1 := { cell0 with diffusiveMass := cell0.nextDm, attachmentFlag := cell0.attached }
  let cell2 := freezingStep P cell1
  let cell3 := { cell2 with attachmentFlag := attachmentStep P size s c cell2 }
  meltingStep P cell3

/-- `SnowflakeCell.attach`: fold all boundary mass into crystal mass and
set `attached` permanently. -/
def attach (cell : CellState) : CellState :=
  { cell with
    crystalMass := cell.crystalMass + cell.boundaryMass
    boundaryMass := 0
    attached := true }

/-- `SnowflakeCell.noiseStep` with the sampled offset `noiseVal`
(`(Math.random() - 0.5) * sigma * 2` in the source): skipped for
attached cells; otherwise add the offset and clamp at zero. -/
def noiseStep (noiseVal : ℚ) (cell : CellState) : CellState :=
  if cell.attached then cell
  else { cell with diffusiveMass := max 0 (cell.diffusiveMass + noiseVal) }

/-- `SnowflakeCell.stepThree`: attach if the cell was boundary this step
and its attachment decision was positive, then apply noise.  Reads and
writes only the cell's own fields. -/
def stepThreeCell (noiseVal : ℚ) (cell : CellState) : CellState :=
  noiseStep noiseVal (if cell.boundary && cell.attachmentFlag then attach cell else cell)

/-- One in-place pass over the lattice, in its transparent form: visit
the coordinates of `ord` in order, overwriting each visited cell with
`f` applied to the state as it stands when that cell is reached. -/
def updFold (f : LState → Coord → CellState) (ord : List Coord) (s : LState) : LState :=
  ord.foldl (fun st c => updateState st c (f st c)) s

/-- A materialized batch of cells: a list of coordinate/cell entries. -/
abbrev CellTable : Type := List (Coord × CellState)

/-- Read a state given by a materialized table with fallback `base` for
coordinates with no entry. -/
def tableView (tbl : CellTable) (base : LState) : LState := fun x =>
  match tbl.find? fun e => decide (e.1 = x) with
  | some e => e.2
  | none => base x

/-- Overwrite the entries of the table holding coordinate `c`. -/
def setEntry (tbl : CellTable) (c : Coord) (v : CellState) : CellTable :=
  tbl.map fun e => if e.1 = c then (c, v) else e

/-- One in-place pass over the lattice: extensionally equal to `updFold`
(theorem `runPass_eq_updFold`), but folding over a materialized table so
that evaluation on concrete inputs is not exponential. -/
def runPass (f : LState → Coord → CellState) (ord : List Coord) (s : LState) : LState :=
  tableView
    (ord.foldl (fun tbl c => setEntry tbl c (f (tableView tbl s) c))
      (ord.map fun c => (c, s c)))
    s

/-- Pass 1 of `CrystalLattice.step`: `stepOne` for every visited cell. -/
def pass1 (size : ℤ) (ord : List Coord) (s : LState) : LState :=
  runPass (stepOneCell size) ord s

/-- Pass 2 of `CrystalLattice.step`: `stepTwo` for every visited cell. -/
def pass2 (P : Params) (size : ℤ) (ord : List Coord) (s : LState) : LState :=
  runPass (stepTwoCell P size) ord s

/-- Pass 3 of `CrystalLattice.step`: `stepThree` for every visited cell. -/
def pass3 (noise : Coord → ℚ) (ord : List Coord) (s : LState) : LState :=
  runPass (fun st c => stepThreeCell (noise c) (st c)) ord s

/-- One `step()` with an explicit visit order per pass (the source always
uses the map's insertion order for all three). -/
def stepOrders (P : Params) (size : ℤ) (noise : Coord → ℚ)
    (ord1 ord2 ord3 : List Coord) (s : LState) : LState :=
  pass3 noise ord3 (pass2 P size ord2 (pass1 size ord1 s))

/-- `CrystalLattice.step()`: the three passes, each over all cells in the
map's insertion order. -/
def latticeStep (P : Params) (size : ℤ) (noise : Coord → ℚ) (s : LState) : LState :=
  stepOrders P size noise (allCoords size) (allCoords size) (allCoords size) s

/-- A freshly constructed `SnowflakeCell`: diffusive mass `gamma`, all
other masses zero, unattached, non-boundary, scratch fields cleared. -/
def initCell (P : Params) : CellState :=
  { diffusiveMass := P.gamma
    boundaryMass := 0
    crystalMass := 0
    attached := false
    boundary := false
    age := 0
    nextDm := 0
    attachedNeighborCount := 0
    attachmentFlag := false }

/-- The cell contents right after the `CrystalLattice` constructor body:
every cell fresh, then `get(0,0).attached = true`. -/
def initLatticeState (P : Params) (_size : ℤ) : LState :=
  updateState (fun _ => initCell P) (0, 0) { initCell P with attached := true }

/-- `new CrystalLattice(size)`: build the cell map, then set the origin
attached.  When `(0,0)` is not a key of the map (exactly when
`size < 0`), the origin lookup yields no cell and the construction
attempt fails with no lattice produced (the source dereferences
`undefined` there); this is modelled as `none`. -/
def construct (P : Params) (size : ℤ) : Option LState :=
  if inLattice size (0, 0) then some (initLatticeState P size) else none

/-- `CrystalLattice.attachedCells()`: the cells with `attached`, in map
order. -/
def attachedCells (size : ℤ) (s : LState) : List Coord :=
  (allCoords size).filter fun c => (s c).attached

/-- `CrystalLattice.boundaryCells()`: the cells with `boundary` and not
`attached`, in map order. -/
def boundaryCells (size : ℤ) (s : LState) : List Coord :=
  (allCoords size).filter fun c => (s c).boundary && !(s c).attached

/-- Total mass of a cell: diffusive + boundary + crystal. -/
def totalMass (cell : CellState) : ℚ :=
  cell.diffusiveMass + cell.boundaryMass + cell.crystalMass

/-- All three mass fields nonnegative. -/
def massesNonneg (cell : CellState) : Prop :=
  0 ≤ cell.diffusiveMass ∧ 0 ≤ cell.boundaryMass ∧ 0 ≤ cell.crystalMass

/-- Parameters for the β = 0 scenario of the spec (all rates zero,
ambient vapor `gamma = 1/2`), used for concrete witnesses. -/
def wParams : Params :=
  { beta := 0, theta := 0, alpha := 0, kappa := 0, mu := 0, upsilon := 0, sigma := 0, gamma := 1/2 }

/-- The size-1 lattice freshly constructed with `wParams`. -/
def wInit : LState := initLatticeState wParams 1

/-- The noise oracle for `sigma = 0`: every sampled offset is zero. -/
def zeroNoise : Coord → ℚ := fun _ => 0

/-- A uniform state with one boundary cell profile everywhere: boundary,
one attached neighbor recorded, boundary mass 2.  Used to witness the
attachment rule. -/
def oneBoundaryState : LState := fun _ =>
  { diffusiveMass := 0, boundaryMass := 2, crystalMass := 0, attached := false,
    boundary := true, age := 0, nextDm := 0, attachedNeighborCount := 1, attachmentFlag := false }

/-- Parameters for the Pass-2 order-dependence counterexample:
`beta = 10` (no low-k attachment), `theta = 1/8`, `alpha = 0`, all
rates and noise zero. -/
def cexParams : Params :=
  { beta := 10, theta := 1/8, alpha := 0, kappa := 0, mu := 0, upsilon := 0, sigma := 0, gamma := 0 }

/-- A cell with the given diffusive and boundary mass and attachment
flag, everything else cleared. -/
def cexCellMk (dm bm : ℚ) (att : Bool) : CellState :=
  { diffusiveMass := dm, boundaryMass := bm, crystalMass := 0, attached := att,
    boundary := false, age := 0, nextDm := 0, attachedNeighborCount := 0, attachmentFlag := false }

/-- The size-1 lattice state of the Pass-2 order-dependence
counterexample: the origin is unattached with boundary mass 1/2 and is
surrounded by three attached neighbors `(1,0)`, `(0,1)`, `(-1,1)`; the
unattached ring cell `(1,-1)` carries diffusive mass 1/4. -/
def cexState : LState := fun c =>
  if c = ((1 : ℤ), (0 : ℤ)) ∨ c = (0, 1) ∨ c = (-1, 1) then cexCellMk 0 0 true
  else if c = (1, -1) then cexCellMk (1/4) 0 false
  else if c = (0, 0) then cexCellMk 0 (1/2) false
  else cexCellMk 0 0 false

/-- A Pass-2 visit order over the size-1 lattice: the origin first, then
the rest in map order — the origin's attachment test then reads all its
neighbors' previous-step diffusive masses. -/
def cexOrd : List Coord := [(0, 0), (-1, 0), (-1, 1), (0, -1), (0, 1), (1, -1), (1, 0)]

/-- A second Pass-2 visit order: the ring cell `(1,-1)` first, so its
committed (frozen-to-zero) diffusive mass is read by the origin's
attachment test in the same pass. -/
def cexOrd2 : List Coord := [(1, -1), (0, 0), (-1, 0), (-1, 1), (0, -1), (0, 1), (1, 0)]

theorem updateState_same (s : LState) (c : Coord) (v : CellState) :
    updateState s c v c = v := by
  simp [updateState]

theorem updateState_other (s : LState) (c : Coord) (v : CellState) (x : Coord) (h : x ≠ c) :
    updateState s c v x = s x := by
  simp [updateState, h]

theorem keys_setEntry (tbl : CellTable) (c : Coord) (v : CellState) :
    (setEntry tbl c v).map Prod.fst = tbl.map Prod.fst := by
  induction tbl with
  | nil => rfl
  | cons e rest ih =>
      by_cases h : e.1 = c <;> simp [setEntry, h] at ih ⊢ <;> exact ih

theorem find?_setEntry (tbl : CellTable) (c : Coord) (v : CellState) (x : Coord) :
    (setEntry tbl c v).find? (fun e => decide (e.1 = x)) =
      if x = c then (tbl.find? fun e => decide (e.1 = c)).map (fun _ => (c, v))
      else tbl.find? fun e => decide (e.1 = x) := by
  induction tbl with
  | nil => by_cases h : x = c <;> simp [setEntry, h]
  | cons e rest ih =>
      have hstep : setEntry (e :: rest) c v =
          (if e.1 = c then (c, v) else e) :: setEntry rest c v := rfl
      rw [hstep]
      by_cases hec : e.1 = c
      · rw [if_pos hec]
        by_cases hxc : x = c
        · subst hxc
          rw [List.find?_cons_of_pos _ (by simp), if_pos rfl,
            List.find?_cons_of_pos _ (by simp [hec])]
          rfl
        · have hcx : ¬ c = x := fun h => hxc h.symm
          rw [List.find?_cons_of_neg _ (by simp [hcx]), if_neg hxc, ih,
            if_neg hxc, List.find?_cons_of_neg _ (by rw [hec]; simp [hcx])]
      · rw [if_neg hec]
        by_cases hxe : e.1 = x
        · have hne : ¬ x = c := fun hxc => hec (by rw [hxe, hxc])
          rw [List.find?_cons_of_pos _ (by simp [hxe]), if_neg hne,
            List.find?_cons_of_pos _ (by simp [hxe])]
        · rw [List.find?_cons_of_neg _ (by simp [hxe]), ih]
          by_cases hxc : x = c
          · rw [if_pos hxc, if_pos hxc, List.find?_cons_of_neg _ (by simp [hec])]
          · rw [if_neg hxc, if_neg hxc, List.find?_cons_of_neg _ (by simp [hxe])]

theorem tableView_setEntry (tbl : CellTable) (base : LState) (c : Coord) (v : CellState)
    (h : c ∈ tbl.map Prod.fst) (x : Coord) :
    tableView (setEntry tbl c v) base x = updateState (tableView tbl base) c v x := by
  unfold tableView updateState
  rw [find?_setEntry]
  by_cases hxc : x = c
  · subst hxc
    rw [if_pos rfl, if_pos rfl]
    obtain ⟨a, ha, hak⟩ := List.mem_map.mp h
    have hsome : (tbl.find? fun e => decide (e.1 = x)).isSome :=
      List.find?_isSome.mpr ⟨a, ha, by simp [hak]⟩
    cases heq : tbl.find? fun e => decide (e.1 = x) with
    | none => rw [heq] at hsome; simp at hsome
    | some b => simp
  · rw [if_neg hxc, if_neg hxc]

theorem tableView_init (ord : List Coord) (s : LState) (x : Coord) :
    tableView (ord.map fun c => (c, s c)) s x = s x := by
  induction ord with
  | nil => rfl
  | cons a t ih =>
      by_cases hxa : a = x
      · subst hxa; simp [tableView]
      · simpa [tableView, List.find?, hxa] using ih

theorem runPass_eq_updFold (f : LState → Coord → CellState) (ord : List Coord) (s : LState) :
    runPass f ord s = updFold f ord s := by
  suffices h : ∀ (rest : List Coord) (tbl : CellTable) (st : LState),
      tableView tbl s = st → (∀ c ∈ rest, c ∈ tbl.map Prod.fst) →
      tableView (rest.foldl (fun tbl c => setEntry tbl c (f (tableView tbl s) c)) tbl) s =
        rest.foldl (fun st c => updateState st c (f st c)) st by
    refine h ord (ord.map fun c => (c, s c)) s (funext fun x => tableView_init ord s x) ?_
    intro c hc
    simpa using hc
  intro rest
  induction rest with
  | nil => intro tbl st hview _; exact hview
  | cons a t ih =>
      intro tbl st hview hk
      simp only [List.foldl_cons]
      have ha : a ∈ tbl.map Prod.fst := hk a (List.mem_cons_self a t)
      refine ih _ _ ?_ ?_
      · rw [← hview]
        exact funext fun x => tableView_setEntry tbl s a (f (tableView tbl s) a) ha x
      · intro c hc
        rw [keys_setEntry]
        exact hk c (List.mem_cons_of_mem a hc)

theorem updFold_not_mem (f : LState → Coord → CellState) (ord : List Coord) :
    ∀ (s : LState) (c : Coord), c ∉ ord → updFold f ord s c = s c := by
  induction ord with
  | nil => intro s c _; rfl
  | cons a t ih =>
      intro s c hc
      simp only [List.mem_cons, not_or] at hc
      show updFold f t (updateState s a (f s a)) c = s c
      rw [ih _ c hc.2, updateState_other _ _ _ _ hc.1]

theorem runPass_not_mem (f : LState → Coord → CellState) (ord : List Coord)
    (s : LState) (c : Coord) (hc : c ∉ ord) : runPass f ord s c = s c := by
  rw [runPass_eq_updFold]; exact updFold_not_mem f ord s c hc

theorem updFold_proj {α : Type} (g : CellState → α) (f : LState → Coord → CellState)
    (hf : ∀ st x, g (f st x) = g (st x)) (ord : List Coord) :
    ∀ (s : LState) (c : Coord), g (updFold f ord s c) = g (s c) := by
  induction ord with
  | nil => intro s c; rfl
  | cons a t ih =>
      intro s c
      show g (updFold f t (updateState s a (f s a)) c) = g (s c)
      rw [ih]
      by_cases hca : c = a
      · subst hca; rw [updateState_same, hf]
      · rw [updateState_other _ _ _ _ hca]

theorem runPass_proj {α : Type} (g : CellState → α) (f : LState → Coord → CellState)
    (hf : ∀ st x, g (f st x) = g (st x)) (ord : List Coord) (s : LState) (c : Coord) :
    g (runPass f ord s c) = g (s c) := by
  rw [runPass_eq_updFold]; exact updFold_proj g f hf ord s c

theorem updFold_visited (f : LState → Coord → CellState) (ord : List Coord) (h : ord.Nodup) :
    ∀ (s : LState) (c : Coord), c ∈ ord →
      ∃ t : LState, updFold f ord s c = f t c ∧ t c = s c := by
  induction ord with
  | nil => intro s c hc; simp at hc
  | cons a t ih =>
      intro s c hc
      rw [List.nodup_cons] at h
      show ∃ u, updFold f t (updateState s a (f s a)) c = f u c ∧ u c = s c
      by_cases hca : c = a
      · subst hca
        refine ⟨s, ?_, rfl⟩
        rw [updFold_not_mem f t _ c h.1, updateState_same]
      · have hct : c ∈ t := by
          rcases List.mem_cons.mp hc with h' | h'
          · exact absurd h' hca
          · exact h'
        obtain ⟨u, hu, huc⟩ := ih h.2 (updateState s a (f s a)) c hct
        exact ⟨u, hu, by rw [huc, updateState_other _ _ _ _ hca]⟩

theorem updFold_attached_mono (f : LState → Coord → CellState)
    (hf : ∀ st x, (st x).attached = true → (f st x).attached = true) (ord : List Coord) :
    ∀ (s : LState) (c : Coord), (s c).attached = true → (updFold f ord s c).attached = true := by
  induction ord with
  | nil => intro s c hc; exact hc
  | cons a t ih =>
      intro s c hc
      show (updFold f t (updateState s a (f s a)) c).attached = true
      refine ih _ c ?_
      by_cases hca : c = a
      · subst hca; rw [updateState_same]; exact hf s c hc
      · rw [updateState_other _ _ _ _ hca]; exact hc

theorem stepOneCell_attached (size : ℤ) (s : LState) (c : Coord) :
    (stepOneCell size s c).attached = (s c).attached := rfl

theorem stepOneCell_diffusiveMass (size : ℤ) (s : LState) (c : Coord) :
    (stepOneCell size s c).diffusiveMass = (s c).diffusiveMass := rfl

theorem stepOneCell_boundaryMass (size : ℤ) (s : LState) (c : Coord) :
    (stepOneCell size s c).boundaryMass = (s c).boundaryMass := rfl

theorem stepOneCell_crystalMass (size : ℤ) (s : LState) (c : Coord) :
    (stepOneCell size s c).crystalMass = (s c).crystalMass := rfl

theorem stepOneCell_congr (size : ℤ) (s t : LState) (c : Coord) (hc : s c = t c)
    (ha : ∀ y, (s y).attached = (t y).attached)
    (hd : ∀ y, (s y).diffusiveMass = (t y).diffusiveMass) :
    stepOneCell size s c = stepOneCell size t c := by
  simp only [stepOneCell, diffusionCalc, hc, ha, hd]

theorem updFold_stepOne_eq (size : ℤ) (ord : List Coord) (h : ord.Nodup) :
    ∀ (s : LState) (c : Coord),
      updFold (stepOneCell size) ord s c =
        if c ∈ ord then stepOneCell size s c else s c := by
  induction ord with
  | nil => intro s c; simp [updFold]
  | cons a t ih =>
      intro s c
      rw [List.nodup_cons] at h
      show updFold (stepOneCell size) t (updateState s a (stepOneCell size s a)) c = _
      by_cases hct : c ∈ t
      · rw [ih h.2, if_pos hct, if_pos (List.mem_cons_of_mem a hct)]
        have hca : c ≠ a := fun hh => h.1 (hh ▸ hct)
        refine stepOneCell_congr size _ s c (updateState_other _ _ _ _ hca) ?_ ?_
        · intro y
          by_cases hya : y = a
          · subst hya; rw [updateState_same, stepOneCell_attached]
          · rw [updateState_other _ _ _ _ hya]
        · intro y
          by_cases hya : y = a
          · subst hya; rw [updateState_same, stepOneCell_diffusiveMass]
          · rw [updateState_other _ _ _ _ hya]
      · rw [updFold_not_mem _ _ _ _ hct]
        by_cases hca : c = a
        · subst hca
          rw [updateState_same, if_pos (List.mem_cons_self _ _)]
        · rw [updateState_other _ _ _ _ hca,
            if_neg (fun hh => by rcases List.mem_cons.mp hh with h' | h' <;> [exact hca h'; exact hct h'])]

theorem pass1_eq (size : ℤ) (ord : List Coord) (h : ord.Nodup) (s : LState) (c : Coord) :
    pass1 size ord s c = if c ∈ ord then stepOneCell size s c else s c := by
  rw [pass1, runPass_eq_updFold]; exact updFold_stepOne_eq size ord h s c

theorem updFold_stepThree_eq (noise : Coord → ℚ) (ord : List Coord) (h : ord.Nodup) :
    ∀ (s : LState) (c : Coord),
      updFold (fun st x => stepThreeCell (noise x) (st x)) ord s c =
        if c ∈ ord then stepThreeCell (noise c) (s c) else s c := by
  induction ord with
  | nil => intro s c; simp [updFold]
  | cons a t ih =>
      intro s c
      rw [List.nodup_cons] at h
      show updFold _ t (updateState s a (stepThreeCell (noise a) (s a))) c = _
      by_cases hct : c ∈ t
      · rw [ih h.2, if_pos hct, if_pos (List.mem_cons_of_mem a hct)]
        have hca : c ≠ a := fun hh => h.1 (hh ▸ hct)
        rw [updateState_other _ _ _ _ hca]
      · rw [updFold_not_mem _ _ _ _ hct]
        by_cases hca : c = a
        · subst hca
          rw [updateState_same, if_pos (List.mem_cons_self _ _)]
        · rw [updateState_other _ _ _ _ hca,
            if_neg (fun hh => by rcases List.mem_cons.mp hh with h' | h' <;> [exact hca h'; exact hct h'])]

theorem pass3_eq (noise : Coord → ℚ) (ord : List Coord) (h : ord.Nodup) (s : LState) (c : Coord) :
    pass3 noise ord s c = if c ∈ ord then stepThreeCell (noise c) (s c) else s c := by
  rw [pass3, runPass_eq_updFold]; exact updFold_stepThree_eq noise ord h s c

theorem mem_intRange (lo hi a : ℤ) : a ∈ intRange lo hi ↔ lo ≤ a ∧ a ≤ hi := by
  unfold intRange
  simp only [List.mem_map, List.mem_range]
  constructor
  · rintro ⟨i, hlt, rfl⟩
    omega
  · rintro ⟨h1, h2⟩
    exact ⟨(a - lo).toNat, by omega, by omega⟩

theorem nodup_intRange (lo hi : ℤ) : (intRange lo hi).Nodup := by
  refine List.Nodup.map ?_ (List.nodup_range _)
  intro i j hij
  change lo + (i : ℤ) = lo + (j : ℤ) at hij
  omega

theorem mem_allCoords (size : ℤ) (c : Coord) :
    c ∈ allCoords size ↔ inLattice size c = true := by
  obtain ⟨q, r⟩ := c
  unfold allCoords inLattice
  rw [List.mem_filter, List.mem_product, mem_intRange, mem_intRange]
  simp only [Bool.and_eq_true, decide_eq_true_eq, abs_le]

theorem nodup_allCoords (size : ℤ) : (allCoords size).Nodup :=
  ((nodup_intRange _ _).product (nodup_intRange _ _)).filter _

theorem freezingStep_boundary (P : Params) (cell : CellState) :
    (freezingStep P cell).boundary = cell.boundary := by
  unfold freezingStep; split <;> rfl

theorem freezingStep_attached (P : Params) (cell : CellState) :
    (freezingStep P cell).attached = cell.attached := by
  unfold freezingStep; split <;> rfl

theorem freezingStep_nextDm (P : Params) (cell : CellState) :
    (freezingStep P cell).nextDm = cell.nextDm := by
  unfold freezingStep; split <;> rfl

theorem freezingStep_count (P : Params) (cell : CellState) :
    (freezingStep P cell).attachedNeighborCount = cell.attachedNeighborCount := by
  unfold freezingStep; split <;> rfl

theorem freezingStep_flag (P : Params) (cell : CellState) :
    (freezingStep P cell).attachmentFlag = cell.attachmentFlag := by
  unfold freezingStep; split <;> rfl

theorem meltingStep_boundary (P : Params) (cell : CellState) :
    (meltingStep P cell).boundary = cell.boundary := by
  unfold meltingStep; split <;> rfl

theorem meltingStep_attached (P : Params) (cell : CellState) :
    (meltingStep P cell).attached = cell.attached := by
  unfold meltingStep; split <;> rfl

theorem meltingStep_nextDm (P : Params) (cell : CellState) :
    (meltingStep P cell).nextDm = cell.nextDm := by
  unfold meltingStep; split <;> rfl

theorem meltingStep_count (P : Params) (cell : CellState) :
    (meltingStep P cell).attachedNeighborCount = cell.attachedNeighborCount := by
  unfold meltingStep; split <;> rfl

theorem meltingStep_flag (P : Params) (cell : CellState) :
    (meltingStep P cell).attachmentFlag = cell.attachmentFlag := by
  unfold meltingStep; split <;> rfl

theorem stepTwoCell_boundary (P : Params) (size : ℤ) (s : LState) (c : Coord) :
    (stepTwoCell P size s c).boundary = (s c).boundary := by
  unfold stepTwoCell
  rw [meltingStep_boundary]
  show (freezingStep P _).boundary = _
  rw [freezingStep_boundary]

theorem stepTwoCell_attached (P : Params) (size : ℤ) (s : LState) (c : Coord) :
    (stepTwoCell P size s c).attached = (s c).attached := by
  unfold stepTwoCell
  rw [meltingStep_attached]
  show (freezingStep P _).attached = _
  rw [freezingStep_attached]

theorem stepTwoCell_nextDm (P : Params) (size : ℤ) (s : LState) (c : Coord) :
    (stepTwoCell P size s c).nextDm = (s c).nextDm := by
  unfold stepTwoCell
  rw [meltingStep_nextDm]
  show (freezingStep P _).nextDm = _
  rw [freezingStep_nextDm]

theorem stepTwoCell_count (P : Params) (size : ℤ) (s : LState) (c : Coord) :
    (stepTwoCell P size s c).attachedNeighborCount = (s c).attachedNeighborCount := by
  unfold stepTwoCell
  rw [meltingStep_count]
  show (freezingStep P _).attachedNeighborCount = _
  rw [freezingStep_count]

theorem stepTwoCell_flag (P : Params) (size : ℤ) (s : LState) (c : Coord) :
    (stepTwoCell P size s c).attachmentFlag =
      attachmentStep P size s c
        (freezingStep P
          { s c with diffusiveMass := (s c).nextDm, attachmentFlag := (s c).attached }) := by
  unfold stepTwoCell
  rw [meltingStep_flag]

theorem noiseStep_attached (nv : ℚ) (cell : CellState) :
    (noiseStep nv cell).attached = cell.attached := by
  unfold noiseStep; split <;> rfl

theorem noiseStep_boundary (nv : ℚ) (cell : CellState) :
    (noiseStep nv cell).boundary = cell.boundary := by
  unfold noiseStep; split <;> rfl

theorem noiseStep_boundaryMass (nv : ℚ) (cell : CellState) :
    (noiseStep nv cell).boundaryMass = cell.boundaryMass := by
  unfold noiseStep; split <;> rfl

theorem noiseStep_crystalMass (nv : ℚ) (cell : CellState) :
    (noiseStep nv cell).crystalMass = cell.crystalMass := by
  unfold noiseStep; split <;> rfl

theorem stepThreeCell_attached (nv : ℚ) (cell : CellState) :
    (stepThreeCell nv cell).attached =
      (cell.attached || (cell.boundary && cell.attachmentFlag)) := by
  unfold stepThreeCell
  rw [noiseStep_attached]
  cases hbf : cell.boundary && cell.attachmentFlag
  · simp
  · simp [attach]

theorem stepThreeCell_boundary (nv : ℚ) (cell : CellState) :
    (stepThreeCell nv cell).boundary = cell.boundary := by
  unfold stepThreeCell
  rw [noiseStep_boundary]
  cases hbf : cell.boundary && cell.attachmentFlag
  · simp
  · simp [attach]

theorem foldl_add_map {α : Type} (l : List α) (g : α → ℚ) (init : ℚ) :
    l.foldl (fun acc n => acc + g n) init = init + (l.map g).sum := by
  induction l generalizing init with
  | nil => simp
  | cons a t ih => simp [ih, add_assoc]

theorem attachmentStep_eq (P : Params) (size : ℤ) (s : LState) (c : Coord) (cell : CellState)
    (hb : cell.boundary = true) (hk : 1 ≤ cell.attachedNeighborCount) :
    (attachmentStep P size s c cell = true ↔
      ((cell.attachedNeighborCount = 1 ∨ cell.attachedNeighborCount = 2) ∧
          P.beta < cell.boundaryMass) ∨
      (cell.attachedNeighborCount = 3 ∧
        (1 ≤ cell.boundaryMass ∨
          (P.alpha ≤ cell.boundaryMass ∧
            cell.diffusiveMass +
              ((neighborsIn size c).map fun n => (s n).diffusiveMass).sum < P.theta)))) := by
  unfold attachmentStep
  rw [if_neg (by simp [hb])]
  by_cases h2 : cell.attachedNeighborCount ≤ 2
  · rw [if_pos h2]
    split_ifs with hbeta
    · simp only [true_iff]
      exact Or.inl ⟨by omega, hbeta⟩
    · simp only [Bool.false_eq_true, false_iff]
      rintro (⟨_, hh⟩ | ⟨h3, _⟩)
      · exact hbeta hh
      · omega
  · rw [if_neg h2]
    by_cases h3 : cell.attachedNeighborCount = 3
    · rw [if_pos h3]
      by_cases hbm : (1 : ℚ) ≤ cell.boundaryMass
      · rw [if_pos hbm]
        simp only [true_iff]
        exact Or.inr ⟨h3, Or.inl hbm⟩
      · rw [if_neg hbm]
        rw [foldl_add_map]
        dsimp only
        split_ifs with hcond
        · simp only [true_iff]
          exact Or.inr ⟨h3, Or.inr ⟨hcond.2, hcond.1⟩⟩
        · simp only [Bool.false_eq_true, false_iff]
          rintro (⟨hh, _⟩ | ⟨_, hh | ⟨ha, ht⟩⟩)
          · omega
          · exact hbm hh
          · exact hcond ⟨ht, ha⟩
    · rw [if_neg h3]
      simp only [Bool.false_eq_true, false_iff]
      rintro (⟨hh, _⟩ | ⟨hh, _⟩)
      · omega
      · omega

/-- C5: in Pass 1, a non-attached cell's candidate next diffusive mass
is `(own_dm + Σ_neighbors contribution) / (num_neighbors + 1)` with
`contribution = own_dm` for an attached neighbor and the neighbor's
diffusive mass otherwise, while an attached cell's candidate equals its
own diffusive mass unchanged (Pass 2 then commits the candidate, so the
diffusion step leaves attached cells' diffusive mass unchanged). -/
theorem claimC5_diffusion_averaging (size : ℤ) (s : LState) (c : Coord) :
    ((s c).attached = false →
      (stepOneCell size s c).nextDm =
        ((s c).diffusiveMass +
          ((neighborsIn size c).map fun n =>
            if (s n).attached = true then (s c).diffusiveMass
            else (s n).diffusiveMass).sum) /
          ((neighborsIn size c).length + 1))
    ∧ ((s c).attached = true → (stepOneCell size s c).nextDm = (s c).diffusiveMass) := by
  constructor
  · intro h
    show diffusionCalc size s c = _
    unfold diffusionCalc
    rw [if_neg (by simp [h])]
    dsimp only
    rw [foldl_add_map]
  · intro h
    show diffusionCalc size s c = _
    unfold diffusionCalc
    rw [if_pos h]

/-- Witness for C5 at a concrete input: the unattached origin of the
`oneBoundaryState` profile gets exactly the averaging formula. -/
theorem claimC5_witness :
    (oneBoundaryState ((0 : ℤ), (0 : ℤ))).attached = false ∧
    (stepOneCell 1 oneBoundaryState ((0 : ℤ), (0 : ℤ))).nextDm =
      ((oneBoundaryState ((0 : ℤ), (0 : ℤ))).diffusiveMass +
        ((neighborsIn 1 ((0 : ℤ), (0 : ℤ))).map fun n =>
          if (oneBoundaryState n).attached = true
          then (oneBoundaryState ((0 : ℤ), (0 : ℤ))).diffusiveMass
          else (oneBoundaryState n).diffusiveMass).sum) /
        ((neighborsIn 1 ((0 : ℤ), (0 : ℤ))).length + 1) :=
  ⟨rfl, (claimC5_diffusion_averaging 1 oneBoundaryState ((0 : ℤ), (0 : ℤ))).1 rfl⟩

/-- C6: freezing, melting, and the attachment commit each conserve the
cell's total mass `diffusiveMass + boundaryMass + crystalMass`, for
every cell state and all parameter values. -/
theorem claimC6_mass_conservation (P : Params) (cell : CellState) :
    totalMass (freezingStep P cell) = totalMass cell ∧
    totalMass (meltingStep P cell) = totalMass cell ∧
    totalMass (attach cell) = totalMass cell := by
  refine ⟨?_, ?_, ?_⟩
  · unfold totalMass freezingStep
    split
    · rfl
    · dsimp only; ring
  · unfold totalMass meltingStep
    split
    · rfl
    · dsimp only; ring
  · unfold totalMass attach
    dsimp only
    ring

/-- C7: an attached cell stays attached across a full `step()`: Pass 1
and Pass 2 never write `attached`, and Pass 3 only ever sets it to
`true`. -/
theorem claimC7_attachment_monotone (P : Params) (size : ℤ) (noise : Coord → ℚ)
    (s : LState) (c : Coord) (h : (s c).attached = true) :
    (latticeStep P size noise s c).attached = true := by
  unfold latticeStep stepOrders
  have h1 : (pass1 size (allCoords size) s c).attached = true := by
    rw [pass1, runPass_proj CellState.attached (stepOneCell size)
      (fun st x => stepOneCell_attached size st x)]
    exact h
  have h2 : (pass2 P size (allCoords size) (pass1 size (allCoords size) s) c).attached = true := by
    rw [pass2, runPass_proj CellState.attached (stepTwoCell P size)
      (fun st x => stepTwoCell_attached P size st x)]
    exact h1
  rw [pass3, runPass_eq_updFold]
  refine updFold_attached_mono _ ?_ _ _ _ h2
  intro st x hx
  rw [stepThreeCell_attached, hx, Bool.true_or]

/-- Witness for C7: the attached origin of the fresh size-1 lattice is
still attached after one step. -/
theorem claimC7_witness :
    (latticeStep wParams 1 zeroNoise wInit ((0 : ℤ), (0 : ℤ))).attached = true :=
  claimC7_attachment_monotone wParams 1 zeroNoise wInit ((0 : ℤ), (0 : ℤ)) rfl

/-- C10: `attachedCells()` and `boundaryCells()` are disjoint for every
lattice state, because `boundaryCells()` filters out attached cells even
when a freshly attached cell still carries `boundary = true`; both are
pure queries of the state (they are functions here, mutating nothing by
construction). -/
theorem claimC10_queries_disjoint (size : ℤ) (s : LState) (c : Coord)
    (h : c ∈ attachedCells size s) : c ∉ boundaryCells size s := by
  intro hb
  rw [attachedCells, List.mem_filter] at h
  rw [boundaryCells, List.mem_filter, Bool.and_eq_true] at hb
  rw [h.2] at hb
  simp at hb

/-- Witness for C10: on the fresh size-1 lattice the origin is in
`attachedCells` and hence not in `boundaryCells`. -/
theorem claimC10_witness :
    ((0 : ℤ), (0 : ℤ)) ∈ attachedCells 1 wInit ∧
    ((0 : ℤ), (0 : ℤ)) ∉ boundaryCells 1 wInit :=
  ⟨by decide, claimC10_queries_disjoint 1 wInit ((0 : ℤ), (0 : ℤ)) (by decide)⟩

/-- C1: the Pass-2 attachment decision of a boundary cell, in terms of
`k` (the Pass-1 snapshot of attached neighbors, which is at least 1 for
every boundary cell Pass 1 produces — first conjunct) and the
post-freezing, pre-melting boundary mass
`boundaryMass + (1 - kappa) · committed diffusive mass`: for `k ∈ {1,2}`
attach iff that mass exceeds `beta`; for `k = 3` attach iff it is `≥ 1`
or (`≥ alpha` and the summed diffusive mass of the cell — zero after
freezing — and its neighbors is `< theta`); never for `k ≥ 4` (nor for
`k = 0`, which cannot occur for a boundary cell). -/
theorem claimC1_attachment_rule (P : Params) (size : ℤ) (s : LState) (c : Coord) :
    (∀ t : LState, (stepOneCell size t c).boundary = true →
        1 ≤ (stepOneCell size t c).attachedNeighborCount) ∧
    ((s c).boundary = true → 1 ≤ (s c).attachedNeighborCount →
      ((stepTwoCell P size s c).attachmentFlag = true ↔
        (((s c).attachedNeighborCount = 1 ∨ (s c).attachedNeighborCount = 2) ∧
            P.beta < (s c).boundaryMass + (1 - P.kappa) * (s c).nextDm) ∨
        ((s c).attachedNeighborCount = 3 ∧
          (1 ≤ (s c).boundaryMass + (1 - P.kappa) * (s c).nextDm ∨
            (P.alpha ≤ (s c).boundaryMass + (1 - P.kappa) * (s c).nextDm ∧
              0 + ((neighborsIn size c).map fun n => (s n).diffusiveMass).sum < P.theta))))) := by
  constructor
  · intro t ht
    have hb : (!(t c).attached && (neighborsIn size c).any fun n => (t n).attached) = true := ht
    show (if (!(t c).attached && (neighborsIn size c).any fun n => (t n).attached)
        then ((neighborsIn size c).filter fun n => (t n).attached).length
        else (t c).attachedNeighborCount) ≥ 1
    rw [if_pos hb]
    rw [Bool.and_eq_true, List.any_eq_true] at hb
    obtain ⟨x, hx, hxa⟩ := hb.2
    exact List.length_pos_of_mem (List.mem_filter.mpr ⟨hx, hxa⟩)
  · intro hb hk
    rw [stepTwoCell_flag]
    set cell1 : CellState :=
      { s c with diffusiveMass := (s c).nextDm, attachmentFlag := (s c).attached } with hc1
    have hb1 : cell1.boundary = true := hb
    have hfz : freezingStep P cell1 =
        { cell1 with
          boundaryMass := cell1.boundaryMass + (1 - P.kappa) * cell1.diffusiveMass
          crystalMass := cell1.crystalMass + P.kappa * cell1.diffusiveMass
          diffusiveMass := 0 } := by
      unfold freezingStep
      rw [if_neg (by rw [hb1]; exact fun hh => Bool.true_eq_false.mp hh)]
    have hbf : (freezingStep P cell1).boundary = true := by
      rw [freezingStep_boundary]; exact hb1
    have hkf : 1 ≤ (freezingStep P cell1).attachedNeighborCount := by
      rw [freezingStep_count]; exact hk
    rw [attachmentStep_eq P size s c (freezingStep P cell1) hbf hkf, hfz]

theorem stepOneCell_attached_eq (size : ℤ) (s : LState) (c : Coord)
    (h : (s c).attached = true) :
    stepOneCell size s c =
      { s c with boundary := false, nextDm := (s c).diffusiveMass } := by
  unfold stepOneCell diffusionCalc
  simp [h]

theorem stepTwoCell_of_not_boundary (P : Params) (size : ℤ) (t : LState) (c : Coord)
    (h : (t c).boundary = false) :
    stepTwoCell P size t c =
      { t c with diffusiveMass := (t c).nextDm, attachmentFlag := false } := by
  unfold stepTwoCell freezingStep meltingStep attachmentStep
  simp [h]

theorem stepThreeCell_frame (nv : ℚ) (cell : CellState)
    (h1 : cell.boundary = false) (h2 : cell.attached = true) :
    stepThreeCell nv cell = cell := by
  unfold stepThreeCell noiseStep
  simp [h1, h2]

theorem pass1_not_mem (size : ℤ) (ord : List Coord) (s : LState) (c : Coord)
    (hc : c ∉ ord) : pass1 size ord s c = s c :=
  runPass_not_mem _ _ _ _ hc

theorem pass2_not_mem (P : Params) (size : ℤ) (ord : List Coord) (s : LState) (c : Coord)
    (hc : c ∉ ord) : pass2 P size ord s c = s c :=
  runPass_not_mem _ _ _ _ hc

theorem pass3_not_mem (noise : Coord → ℚ) (ord : List Coord) (s : LState) (c : Coord)
    (hc : c ∉ ord) : pass3 noise ord s c = s c :=
  runPass_not_mem _ _ _ _ hc

/-- C9: a cell that is attached at the start of a `step()` comes out of
that step with all three mass fields unchanged: Pass 1 sets its boundary
flag to false and proposes its own diffusive mass as candidate, Pass 2
commits that candidate and skips freezing/attachment/melting, and Pass 3
skips both the attachment commit and the noise step. -/
theorem claimC9_attached_cell_masses_frame (P : Params) (size : ℤ) (noise : Coord → ℚ)
    (s : LState) (c : Coord) (h : (s c).attached = true) :
    (latticeStep P size noise s c).diffusiveMass = (s c).diffusiveMass ∧
    (latticeStep P size noise s c).boundaryMass = (s c).boundaryMass ∧
    (latticeStep P size noise s c).crystalMass = (s c).crystalMass := by
  have hnd := nodup_allCoords size
  unfold latticeStep stepOrders
  by_cases hmem : c ∈ allCoords size
  · set s1 : LState := pass1 size (allCoords size) s with hs1
    set s2 : LState := pass2 P size (allCoords size) s1 with hs2
    have h1 : s1 c =
        { s c with
          boundary := false
          nextDm := (s c).diffusiveMass } := by
      rw [hs1, pass1_eq size _ hnd s c, if_pos hmem, stepOneCell_attached_eq size s c h]
    obtain ⟨t, ht2, htc⟩ :
        ∃ t : LState, s2 c = stepTwoCell P size t c ∧ t c = s1 c := by
      rw [hs2, pass2, runPass_eq_updFold]
      exact updFold_visited (stepTwoCell P size) _ hnd s1 c hmem
    have h2 : s2 c =
        { s c with
          boundary := false
          nextDm := (s c).diffusiveMass
          attachmentFlag := false } := by
      rw [ht2, stepTwoCell_of_not_boundary P size t c (by rw [htc, h1]), htc, h1]
    have h3 : pass3 noise (allCoords size) s2 c = s2 c := by
      rw [pass3_eq noise _ hnd s2 c, if_pos hmem,
        stepThreeCell_frame (noise c) _ (by rw [h2]) (by rw [h2]; exact h)]
    rw [h3, h2]
    exact ⟨rfl, rfl, rfl⟩
  · rw [pass3_not_mem _ _ _ _ hmem, pass2_not_mem _ _ _ _ _ hmem,
      pass1_not_mem _ _ _ _ hmem]
    exact ⟨rfl, rfl, rfl⟩

/-- Witness for C9: the attached origin of the fresh size-1 lattice
keeps its three masses across one step. -/
theorem claimC9_witness :
    (latticeStep wParams 1 zeroNoise wInit ((0 : ℤ), (0 : ℤ))).diffusiveMass =
      (wInit ((0 : ℤ), (0 : ℤ))).diffusiveMass ∧
    (latticeStep wParams 1 zeroNoise wInit ((0 : ℤ), (0 : ℤ))).boundaryMass =
      (wInit ((0 : ℤ), (0 : ℤ))).boundaryMass ∧
    (latticeStep wParams 1 zeroNoise wInit ((0 : ℤ), (0 : ℤ))).crystalMass =
      (wInit ((0 : ℤ), (0 : ℤ))).crystalMass :=
  claimC9_attached_cell_masses_frame wParams 1 zeroNoise wInit ((0 : ℤ), (0 : ℤ)) rfl

/-- Witness for C1: a boundary cell with one attached neighbor and
boundary mass 2 above `beta = 0` gets a positive attachment decision,
via the characterization. -/
theorem claimC1_witness :
    (stepTwoCell wParams 1 oneBoundaryState ((0 : ℤ), (0 : ℤ))).attachmentFlag = true :=
  ((claimC1_attachment_rule wParams 1 oneBoundaryState ((0 : ℤ), (0 : ℤ))).2 rfl
      (Nat.le_refl 1)).mpr
    (Or.inl ⟨Or.inl rfl, by norm_num [wParams, oneBoundaryState]⟩)

theorem diffusionCalc_nonneg (size : ℤ) (s : LState) (c : Coord)
    (hd : ∀ y, 0 ≤ (s y).diffusiveMass) : 0 ≤ diffusionCalc size s c := by
  simp only [diffusionCalc]
  split
  · exact hd c
  · rw [foldl_add_map]
    refine div_nonneg (add_nonneg (hd c) (List.sum_nonneg ?_)) (by positivity)
    intro x hx
    obtain ⟨n, _, rfl⟩ := List.mem_map.mp hx
    split
    · exact hd c
    · exact hd n

theorem freezingStep_nonneg (P : Params) (hk0 : 0 ≤ P.kappa) (hk1 : P.kappa ≤ 1)
    (cell : CellState) (h : massesNonneg cell) : massesNonneg (freezingStep P cell) := by
  unfold freezingStep
  split
  · exact h
  · exact ⟨le_refl 0,
      add_nonneg h.2.1 (mul_nonneg (by linarith) h.1),
      add_nonneg h.2.2 (mul_nonneg hk0 h.1)⟩

theorem meltingStep_nonneg (P : Params) (hm0 : 0 ≤ P.mu) (hm1 : P.mu ≤ 1)
    (hu0 : 0 ≤ P.upsilon) (hu1 : P.upsilon ≤ 1)
    (cell : CellState) (h : massesNonneg cell) : massesNonneg (meltingStep P cell) := by
  unfold meltingStep
  split
  · exact h
  · exact ⟨add_nonneg (add_nonneg h.1 (mul_nonneg hm0 h.2.1)) (mul_nonneg hu0 h.2.2),
      mul_nonneg (by linarith) h.2.1,
      mul_nonneg (by linarith) h.2.2⟩

theorem stepTwoCell_nonneg (P : Params) (size : ℤ) (s : LState) (a : Coord)
    (hk0 : 0 ≤ P.kappa) (hk1 : P.kappa ≤ 1) (hm0 : 0 ≤ P.mu) (hm1 : P.mu ≤ 1)
    (hu0 : 0 ≤ P.upsilon) (hu1 : P.upsilon ≤ 1)
    (hcell : massesNonneg (s a)) (hnd : 0 ≤ (s a).nextDm) :
    massesNonneg (stepTwoCell P size s a) := by
  unfold stepTwoCell
  refine meltingStep_nonneg P hm0 hm1 hu0 hu1 _ ?_
  have h2 := freezingStep_nonneg P hk0 hk1
    { s a with diffusiveMass := (s a).nextDm, attachmentFlag := (s a).attached }
    ⟨hnd, hcell.2.1, hcell.2.2⟩
  exact ⟨h2.1, h2.2.1, h2.2.2⟩

theorem noiseStep_nonneg (nv : ℚ) (cell : CellState) (h : massesNonneg cell) :
    massesNonneg (noiseStep nv cell) := by
  unfold noiseStep
  split
  · exact h
  · exact ⟨le_max_left 0 _, h.2.1, h.2.2⟩

theorem stepThreeCell_nonneg (nv : ℚ) (cell : CellState) (h : massesNonneg cell) :
    massesNonneg (stepThreeCell nv cell) := by
  unfold stepThreeCell
  refine noiseStep_nonneg nv _ ?_
  split
  · exact ⟨h.1, le_refl 0, add_nonneg h.2.2 h.2.1⟩
  · exact h

theorem updFold_stepOne_nonneg (size : ℤ) (ord : List Coord) :
    ∀ s : LState, (∀ y, massesNonneg (s y)) →
      (∀ y, massesNonneg (updFold (stepOneCell size) ord s y)) ∧
      (∀ y ∈ ord, 0 ≤ (updFold (stepOneCell size) ord s y).nextDm) := by
  induction ord with
  | nil =>
      intro s hs
      exact ⟨hs, by intro y hy; simp at hy⟩
  | cons a t ih =>
      intro s hs
      have hs' : ∀ y, massesNonneg (updateState s a (stepOneCell size s a) y) := by
        intro y
        by_cases hya : y = a
        · subst hya
          rw [updateState_same]
          exact ⟨by rw [stepOneCell_diffusiveMass]; exact (hs y).1,
            by rw [stepOneCell_boundaryMass]; exact (hs y).2.1,
            by rw [stepOneCell_crystalMass]; exact (hs y).2.2⟩
        · rw [updateState_other _ _ _ _ hya]; exact hs y
      obtain ⟨hM, hN⟩ := ih _ hs'
      refine ⟨hM, ?_⟩
      intro y hy
      rcases List.mem_cons.mp hy with hya | hyt
      · by_cases hyt2 : y ∈ t
        · exact hN y hyt2
        · show 0 ≤ (updFold (stepOneCell size) t (updateState s a (stepOneCell size s a)) y).nextDm
          rw [updFold_not_mem _ _ _ _ hyt2, hya, updateState_same]
          exact diffusionCalc_nonneg size s a fun z => (hs z).1
      · exact hN y hyt

theorem updFold_stepTwo_nonneg (P : Params) (size : ℤ)
    (hk0 : 0 ≤ P.kappa) (hk1 : P.kappa ≤ 1) (hm0 : 0 ≤ P.mu) (hm1 : P.mu ≤ 1)
    (hu0 : 0 ≤ P.upsilon) (hu1 : P.upsilon ≤ 1) (ord : List Coord) :
    ∀ s : LState, (∀ y, massesNonneg (s y)) → (∀ y ∈ ord, 0 ≤ (s y).nextDm) →
      ∀ y, massesNonneg (updFold (stepTwoCell P size) ord s y) := by
  induction ord with
  | nil => intro s hs _ y; exact hs y
  | cons a t ih =>
      intro s hs hN
      have hcell : massesNonneg (stepTwoCell P size s a) :=
        stepTwoCell_nonneg P size s a hk0 hk1 hm0 hm1 hu0 hu1 (hs a)
          (hN a (List.mem_cons_self _ _))
      have hs' : ∀ y, massesNonneg (updateState s a (stepTwoCell P size s a) y) := by
        intro y
        by_cases hya : y = a
        · subst hya; rw [updateState_same]; exact hcell
        · rw [updateState_other _ _ _ _ hya]; exact hs y
      have hN' : ∀ y ∈ t, 0 ≤ (updateState s a (stepTwoCell P size s a) y).nextDm := by
        intro y hy
        by_cases hya : y = a
        · subst hya
          rw [updateState_same, stepTwoCell_nextDm]
          exact hN y (List.mem_cons_self _ _)
        · rw [updateState_other _ _ _ _ hya]
          exact hN y (List.mem_cons_of_mem _ hy)
      exact ih _ hs' hN'

theorem updFold_stepThree_nonneg (noise : Coord → ℚ) (ord : List Coord) :
    ∀ s : LState, (∀ y, massesNonneg (s y)) →
      ∀ y, massesNonneg (updFold (fun st x => stepThreeCell (noise x) (st x)) ord s y) := by
  induction ord with
  | nil => intro s hs y; exact hs y
  | cons a t ih =>
      intro s hs
      refine ih _ ?_
      intro y
      show massesNonneg (updateState s a (stepThreeCell (noise a) (s a)) y)
      by_cases hya : y = a
      · subst hya
        rw [updateState_same]
        exact stepThreeCell_nonneg (noise y) _ (hs y)
      · rw [updateState_other _ _ _ _ hya]; exact hs y

/-- C8: under `0 ≤ kappa, mu, upsilon ≤ 1`, `gamma ≥ 0` and `sigma ≥ 0`
(noise offsets bounded by `sigma`), every cell's three masses are
nonnegative right after construction, and one `step()` preserves
nonnegativity of all three masses at every cell. -/
theorem claimC8_masses_nonneg (P : Params) (size : ℤ) (noise : Coord → ℚ) (s : LState)
    (hk0 : 0 ≤ P.kappa) (hk1 : P.kappa ≤ 1) (hm0 : 0 ≤ P.mu) (hm1 : P.mu ≤ 1)
    (hu0 : 0 ≤ P.upsilon) (hu1 : P.upsilon ≤ 1) (hg : 0 ≤ P.gamma) (hsg : 0 ≤ P.sigma)
    (hnoise : ∀ x, |noise x| ≤ P.sigma) :
    (∀ c, massesNonneg (initLatticeState P size c)) ∧
    ((∀ c, massesNonneg (s c)) → ∀ c, massesNonneg (latticeStep P size noise s c)) := by
  constructor
  · intro c
    unfold initLatticeState updateState
    split
    · exact ⟨hg, le_refl 0, le_refl 0⟩
    · exact ⟨hg, le_refl 0, le_refl 0⟩
  · intro hs c
    unfold latticeStep stepOrders pass1 pass2 pass3
    rw [runPass_eq_updFold, runPass_eq_updFold, runPass_eq_updFold]
    obtain ⟨hM1, hN1⟩ := updFold_stepOne_nonneg size (allCoords size) s hs
    exact updFold_stepThree_nonneg noise _ _
      (updFold_stepTwo_nonneg P size hk0 hk1 hm0 hm1 hu0 hu1 _ _ hM1 hN1) c

/-- Witness for C8: on the freshly constructed size-1 lattice with the
β = 0 parameters, the ring cell `(1,0)` has nonnegative masses after
one step. -/
theorem claimC8_witness :
    massesNonneg (latticeStep wParams 1 zeroNoise wInit ((1 : ℤ), (0 : ℤ))) := by
  have h := claimC8_masses_nonneg wParams 1 zeroNoise wInit
    (by norm_num [wParams]) (by norm_num [wParams]) (by norm_num [wParams])
    (by norm_num [wParams]) (by norm_num [wParams]) (by norm_num [wParams])
    (by norm_num [wParams]) (by norm_num [wParams])
    (by intro x; norm_num [zeroNoise, wParams])
  exact h.2 h.1 ((1 : ℤ), (0 : ℤ))

theorem updFold_cons (f : LState → Coord → CellState) (a : Coord) (l : List Coord)
    (s : LState) : updFold f (a :: l) s = updFold f l (updateState s a (f s a)) := rfl

theorem updFold_cons_self (f : LState → Coord → CellState) (a : Coord) (l : List Coord)
    (s : LState) (h : a ∉ l) : updFold f (a :: l) s a = f s a := by
  rw [updFold_cons, updFold_not_mem _ _ _ _ h, updateState_same]

theorem pass1_diffusiveMass (size : ℤ) (ord : List Coord) (s : LState) (c : Coord) :
    (pass1 size ord s c).diffusiveMass = (s c).diffusiveMass := by
  rw [pass1]
  exact runPass_proj CellState.diffusiveMass _ (fun st x => stepOneCell_diffusiveMass size st x) ord s c

theorem pass2_attached_proj (P : Params) (size : ℤ) (ord : List Coord) (s : LState) (c : Coord) :
    (pass2 P size ord s c).attached = (s c).attached := by
  rw [pass2]
  exact runPass_proj CellState.attached _ (fun st x => stepTwoCell_attached P size st x) ord s c

theorem pass2_boundary_proj (P : Params) (size : ℤ) (ord : List Coord) (s : LState) (c : Coord) :
    (pass2 P size ord s c).boundary = (s c).boundary := by
  rw [pass2]
  exact runPass_proj CellState.boundary _ (fun st x => stepTwoCell_boundary P size st x) ord s c

theorem pass3_boundary_proj (noise : Coord → ℚ) (ord : List Coord) (s : LState) (c : Coord) :
    (pass3 noise ord s c).boundary = (s c).boundary := by
  rw [pass3]
  exact runPass_proj CellState.boundary _ (fun st x => stepThreeCell_boundary (noise x) (st x)) ord s c

/-- Counterexample for C3: on the fresh size-1 lattice with `beta = 0`,
the ring cell `(1,0)` attaches during the step but keeps
`boundary = true` afterwards (nothing clears `boundary` on attachment
until the next step's Pass 1), so after the completed `step()` it is an
attached cell with `boundary = true`, contradicting the claimed
equivalence. -/
theorem claimC3_counterexample :
    (latticeStep wParams 1 zeroNoise wInit ((1 : ℤ), (0 : ℤ))).attached = true ∧
    (latticeStep wParams 1 zeroNoise wInit ((1 : ℤ), (0 : ℤ))).boundary = true := by
  have hmem : ((1 : ℤ), (0 : ℤ)) ∈ allCoords 1 := by decide
  unfold latticeStep stepOrders
  set s1 : LState := pass1 1 (allCoords 1) wInit with hs1
  set s2 : LState := pass2 wParams 1 (allCoords 1) s1 with hs2
  have h1 : s1 ((1 : ℤ), (0 : ℤ)) =
      { diffusiveMass := 1/2, boundaryMass := 0, crystalMass := 0, attached := false,
        boundary := true, age := 1, nextDm := 1/2, attachedNeighborCount := 1,
        attachmentFlag := false } := by
    rw [hs1, pass1_eq 1 _ (nodup_allCoords 1) wInit _, if_pos hmem]
    norm_num [stepOneCell, diffusionCalc, neighborsIn, hexOffsets, inLattice, wInit,
      initLatticeState, updateState, initCell, wParams, List.foldl, Prod.mk.injEq,
      CellState.mk.injEq]
  have hflag : (s2 ((1 : ℤ), (0 : ℤ))).attachmentFlag = true := by
    obtain ⟨t, ht2, htc⟩ :
        ∃ t : LState, s2 ((1 : ℤ), (0 : ℤ)) = stepTwoCell wParams 1 t ((1 : ℤ), (0 : ℤ)) ∧
          t ((1 : ℤ), (0 : ℤ)) = s1 ((1 : ℤ), (0 : ℤ)) := by
      rw [hs2, pass2, runPass_eq_updFold]
      exact updFold_visited (stepTwoCell wParams 1) _ (nodup_allCoords 1) s1 _ hmem
    rw [ht2, stepTwoCell_flag, htc, h1]
    norm_num [attachmentStep, freezingStep, wParams]
  have hbd2 : (s2 ((1 : ℤ), (0 : ℤ))).boundary = true := by
    rw [hs2, pass2_boundary_proj, h1]
  have hat2 : (s2 ((1 : ℤ), (0 : ℤ))).attached = false := by
    rw [hs2, pass2_attached_proj, h1]
  constructor
  · rw [pass3_eq zeroNoise _ (nodup_allCoords 1) s2 _, if_pos hmem, stepThreeCell_attached,
      hflag, hbd2, hat2]
    rfl
  · rw [pass3_boundary_proj, hbd2]

/-- C3 amended: after a completed `step()`, a cell of the lattice has
`boundary = true` iff it was unattached at the start of that step and
some neighbor was attached at the start of that step — attachments
committed in that step's Pass 3 are not reflected until the next step's
Pass 1, and a cell that attaches keeps its stale `boundary = true`. -/
theorem claimC3_boundary_reflects_prestep (P : Params) (size : ℤ) (noise : Coord → ℚ)
    (s : LState) (c : Coord) (hmem : c ∈ allCoords size) :
    ((latticeStep P size noise s c).boundary = true ↔
      ((s c).attached = false ∧
        ((neighborsIn size c).any fun n => (s n).attached) = true)) := by
  unfold latticeStep stepOrders
  rw [pass3_boundary_proj, pass2_boundary_proj,
    pass1_eq size _ (nodup_allCoords size) s c, if_pos hmem]
  show (!(s c).attached && (neighborsIn size c).any fun n => (s n).attached) = true ↔ _
  rw [Bool.and_eq_true, Bool.not_eq_true']

/-- Witness for the amended C3: applying the theorem at the ring cell
`(1,0)` of the fresh size-1 lattice, which has the attached origin as a
neighbor and is unattached at the start of the step. -/
theorem claimC3_witness :
    (latticeStep wParams 1 zeroNoise wInit ((1 : ℤ), (0 : ℤ))).boundary = true :=
  (claimC3_boundary_reflects_prestep wParams 1 zeroNoise wInit ((1 : ℤ), (0 : ℤ))
    (by decide)).mpr ⟨rfl, by decide⟩

/-- C2 amended: Passes 1 and 3 are order-independent — each cell's new
state there depends only on values from before the pass — so any two
duplicate-free visit orders over the same cells give identical results;
Pass 2 is not order-independent, because the attachment test of a cell
with three attached neighbors reads neighbor diffusive masses already
committed earlier in the same pass (see the counterexample). -/
theorem claimC2_passes_one_three_order_independent (size : ℤ) (noise : Coord → ℚ)
    (s : LState) (ord ord' : List Coord) (hperm : ord.Perm ord') (hnd : ord.Nodup) :
    pass1 size ord s = pass1 size ord' s ∧ pass3 noise ord s = pass3 noise ord' s := by
  have hnd' : ord'.Nodup := hperm.nodup_iff.mp hnd
  constructor
  · funext c
    rw [pass1_eq size ord hnd s c, pass1_eq size ord' hnd' s c]
    by_cases hc : c ∈ ord
    · rw [if_pos hc, if_pos (hperm.mem_iff.mp hc)]
    · rw [if_neg hc, if_neg fun hh => hc (hperm.mem_iff.mpr hh)]
  · funext c
    rw [pass3_eq noise ord hnd s c, pass3_eq noise ord' hnd' s c]
    by_cases hc : c ∈ ord
    · rw [if_pos hc, if_pos (hperm.mem_iff.mp hc)]
    · rw [if_neg hc, if_neg fun hh => hc (hperm.mem_iff.mpr hh)]

/-- Witness for the amended C2: visiting the size-1 lattice in map order
or in reverse gives the same Pass 1 and Pass 3 results. -/
theorem claimC2_witness :
    pass1 1 (allCoords 1) wInit = pass1 1 (allCoords 1).reverse wInit ∧
    pass3 zeroNoise (allCoords 1) wInit = pass3 zeroNoise (allCoords 1).reverse wInit :=
  claimC2_passes_one_three_order_independent 1 zeroNoise wInit _ _ (by decide) (by decide)

/-- Counterexample for C2: on the `cexState` lattice the origin has
exactly three attached neighbors, and its Pass-2 attachment test sums
the neighbors' diffusive masses as they stand mid-pass.  Visiting the
origin first (`cexOrd`) reads the ring cell `(1,-1)`'s previous-step
mass 1/4, so the sum 1/4 is not below `theta = 1/8` and the origin does
not attach; visiting `(1,-1)` first (`cexOrd2`) freezes its mass to 0
before the origin is tested, the sum is 0 < 1/8, and the origin
attaches.  Both orders are duplicate-free permutations of the lattice's
cells, yet `step()` produces different final states. -/
theorem claimC2_counterexample :
    cexOrd.Nodup ∧ cexOrd2.Nodup ∧ cexOrd.Perm (allCoords 1) ∧ cexOrd2.Perm (allCoords 1) ∧
    (stepOrders cexParams 1 zeroNoise (allCoords 1) cexOrd (allCoords 1) cexState
        ((0 : ℤ), (0 : ℤ))).attached = false ∧
    (stepOrders cexParams 1 zeroNoise (allCoords 1) cexOrd2 (allCoords 1) cexState
        ((0 : ℤ), (0 : ℤ))).attached = true := by
  have hmem : ((0 : ℤ), (0 : ℤ)) ∈ allCoords 1 := by decide
  unfold stepOrders
  set s1 : LState := pass1 1 (allCoords 1) cexState with hs1
  have h1 : s1 ((0 : ℤ), (0 : ℤ)) =
      { diffusiveMass := 0, boundaryMass := 1/2, crystalMass := 0, attached := false,
        boundary := true, age := 1, nextDm := 1/28, attachedNeighborCount := 3,
        attachmentFlag := false } := by
    rw [hs1, pass1_eq 1 _ (nodup_allCoords 1) cexState _, if_pos hmem]
    norm_num [stepOneCell, diffusionCalc, neighborsIn, hexOffsets, inLattice, cexState,
      cexCellMk, List.foldl, Prod.mk.injEq, Prod.ext_iff, CellState.mk.injEq]
  have hdm : ∀ n, (s1 n).diffusiveMass = (cexState n).diffusiveMass := fun n => by
    rw [hs1]; exact pass1_diffusiveMass 1 _ cexState n
  refine ⟨by decide, by decide, by decide, by decide, ?_, ?_⟩
  · set s2 : LState := pass2 cexParams 1 cexOrd s1 with hs2
    have hflag : (s2 ((0 : ℤ), (0 : ℤ))).attachmentFlag = false := by
      rw [hs2, pass2, runPass_eq_updFold]
      have hcons : cexOrd = ((0 : ℤ), (0 : ℤ)) ::
          [((-1 : ℤ), (0 : ℤ)), ((-1 : ℤ), (1 : ℤ)), ((0 : ℤ), (-1 : ℤ)),
           ((0 : ℤ), (1 : ℤ)), ((1 : ℤ), (-1 : ℤ)), ((1 : ℤ), (0 : ℤ))] := rfl
      rw [hcons, updFold_cons_self _ _ _ _ (by decide), stepTwoCell_flag, h1]
      norm_num [attachmentStep, freezingStep, neighborsIn, hexOffsets, inLattice, hdm,
        cexState, cexCellMk, cexParams, List.foldl, Prod.mk.injEq, Prod.ext_iff]
    have hat2 : (s2 ((0 : ℤ), (0 : ℤ))).attached = false := by
      rw [hs2, pass2_attached_proj, h1]
    have hbd2 : (s2 ((0 : ℤ), (0 : ℤ))).boundary = true := by
      rw [hs2, pass2_boundary_proj, h1]
    rw [pass3_eq zeroNoise _ (nodup_allCoords 1) s2 _, if_pos hmem, stepThreeCell_attached,
      hat2, hbd2, hflag]
    rfl
  · set s2 : LState := pass2 cexParams 1 cexOrd2 s1 with hs2
    have h114 : s1 ((1 : ℤ), (-1 : ℤ)) =
        { diffusiveMass := 1/4, boundaryMass := 0, crystalMass := 0, attached := false,
          boundary := true, age := 1, nextDm := 1/8, attachedNeighborCount := 1,
          attachmentFlag := false } := by
      rw [hs1, pass1_eq 1 _ (nodup_allCoords 1) cexState _, if_pos (by decide)]
      norm_num [stepOneCell, diffusionCalc, neighborsIn, hexOffsets, inLattice, cexState,
        cexCellMk, List.foldl, Prod.mk.injEq, Prod.ext_iff, CellState.mk.injEq]
    have hdm114 : (stepTwoCell cexParams 1 s1 ((1 : ℤ), (-1 : ℤ))).diffusiveMass = 0 := by
      norm_num [stepTwoCell, freezingStep, meltingStep, h114, cexParams]
    have hflag : (s2 ((0 : ℤ), (0 : ℤ))).attachmentFlag = true := by
      rw [hs2, pass2, runPass_eq_updFold]
      have hcons : cexOrd2 = ((1 : ℤ), (-1 : ℤ)) :: ((0 : ℤ), (0 : ℤ)) ::
          [((-1 : ℤ), (0 : ℤ)), ((-1 : ℤ), (1 : ℤ)), ((0 : ℤ), (-1 : ℤ)),
           ((0 : ℤ), (1 : ℤ)), ((1 : ℤ), (0 : ℤ))] := rfl
      rw [hcons, updFold_cons, updFold_cons_self _ _ _ _ (by decide)]
      set smid : LState := updateState s1 ((1 : ℤ), (-1 : ℤ))
        (stepTwoCell cexParams 1 s1 ((1 : ℤ), (-1 : ℤ))) with hsmid
      rw [stepTwoCell_flag]
      have hmid00 : smid ((0 : ℤ), (0 : ℤ)) = s1 ((0 : ℤ), (0 : ℤ)) := by
        rw [hsmid]; exact updateState_other _ _ _ _ (by decide)
      rw [hmid00, h1]
      have hmiddm : ∀ n, (smid n).diffusiveMass =
          if n = ((1 : ℤ), (-1 : ℤ)) then 0 else (cexState n).diffusiveMass := by
        intro n
        by_cases hn : n = ((1 : ℤ), (-1 : ℤ))
        · subst hn
          rw [hsmid, updateState_same, hdm114, if_pos rfl]
        · rw [hsmid, updateState_other _ _ _ _ hn, hdm n, if_neg hn]
      norm_num [attachmentStep, freezingStep, neighborsIn, hexOffsets, inLattice, hmiddm,
        cexState, cexCellMk, cexParams, List.foldl, Prod.mk.injEq, Prod.ext_iff]
    have hat2 : (s2 ((0 : ℤ), (0 : ℤ))).attached = false := by
      rw [hs2, pass2_attached_proj, h1]
    have hbd2 : (s2 ((0 : ℤ), (0 : ℤ))).boundary = true := by
      rw [hs2, pass2_boundary_proj, h1]
    rw [pass3_eq zeroNoise _ (nodup_allCoords 1) s2 _, if_pos hmem, stepThreeCell_attached,
      hat2, hbd2, hflag]
    rfl

/-- Counterexample for C4: constructing with `size = 0` does not fail —
the constructor has no radius validation.  It builds the single origin
cell, marks it attached, and returns that lattice. -/
theorem claimC4_counterexample :
    (construct wParams 0).isSome = true ∧
    attachedCells 0 (initLatticeState wParams 0) = [((0 : ℤ), (0 : ℤ))] := by
  constructor
  · decide
  · decide

/-- C4 amended: the constructor performs no radius check; it succeeds
for every `size ≥ 0` (including the degenerate `size = 0`, which yields
only the attached origin cell), and fails exactly for `size < 0`, where
the cell loops run zero times and the origin lookup
`this.get(0,0).attached = true` dereferences a missing cell (modelled as
`none`; no `ConstructionError` exists in the code). -/
theorem claimC4_construct_no_validation (P : Params) (size : ℤ) :
    (0 ≤ size → (construct P size).isSome = true) ∧
    (size < 0 → construct P size = none) := by
  constructor
  · intro h
    unfold construct
    rw [if_pos (show inLattice size (0, 0) = true by simp [inLattice, abs_le]; omega)]
    rfl
  · intro h
    unfold construct
    rw [if_neg (show ¬ inLattice size (0, 0) = true by simp [inLattice, abs_le]; omega)]

/-- Witness for the amended C4: size 0 succeeds, size -1 fails. -/
theorem claimC4_witness :
    (construct wParams 0).isSome = true ∧ construct wParams (-1) = none :=
  ⟨(claimC4_construct_no_validation wParams 0).1 (by norm_num),
   (claimC4_construct_no_validation wParams (-1)).2 (by norm_num)⟩

end Snowflake
